import Mathlib

/-!
Shallow embedding of `src/learning/ml/python/ranking_model.py` from the
lazylifted repository.

Modelling conventions:
* numpy / Python floats are modelled as rationals (`ℚ`); all arithmetic in
  the embedded code paths is exact, so no rounding behaviour is relevant to
  the claims.
* a feature row is a `List ℚ`; a feature matrix is a list of rows, indexed
  with `List.getD` (the claims only concern in-range indices).
* Python exceptions are modelled by the `PyErr` type and fallible code
  returns `Except PyErr _`.
* the external solvers (sklearn's LinearSVC and the CBC LP solver, both
  invoked deterministically: fixed hyperparameters resp. a fixed random
  seed) are modelled as function parameters: the SVM trainer maps the
  reduced classification data to a coefficient row, the LP solver maps the
  assembled LP problem to a variable assignment.
* `uuid4()` (used only to give a fresh suffix to a duplicated slack-variable
  name) is modelled by a fresh counter threaded through the construction:
  each use yields a value never used before, which is the property the code
  relies on.
* a Python `set` of group ids is modelled as the duplicate-free list keeping
  first occurrences; the claims do not depend on the iteration order, only
  on which groups are present, and the model fixes one deterministic order.
-/

namespace LL

/-- Python-level errors raised (or named by the spec) for the modelled code.
`emptyInputError` is the error class the spec postulates; it is produced
nowhere in the code. -/
inductive PyErr where
  | valueError (msg : String)
  | assertionError
  | zeroDivisionError
  | emptyInputError
deriving DecidableEq

/-- A feature row (one row of the numpy feature matrix). -/
abbrev Row := List ℚ

/-- A feature matrix: a list of rows. -/
abbrev Mat := List Row

/-- Row `i` of the matrix (`X[i]` in the Python code). -/
def row (X : Mat) (i : ℕ) : Row := X.getD i []

/-- Entry `X[i][k]`. -/
def entry (X : Mat) (i k : ℕ) : ℚ := (row X i).getD k 0

/-- Number of columns, `X.shape[1]` (the common width of the rows). -/
def ncols (X : Mat) : ℕ := (X.getD 0 []).length

/-- Dot product of two rows (`np.dot` on equal-length 1-D arrays). -/
def dot (x w : Row) : ℚ := (List.zipWith (· * ·) x w).sum

/-- Pointwise difference of two rows (`X[i] - X[j]`). -/
def rowSub (a b : Row) : Row := List.zipWith (· - ·) a b

/-- A judgment tuple `(i, j, relation, importance)` as consumed by
`fit`, `_to_classification`, `LP.fit` and `kendall_tau`. -/
structure Judgment where
  i : ℕ
  j : ℕ
  relation : ℤ
  importance : ℚ
deriving DecidableEq

/-- The fitted weight artifact: either a plain dense vector (ungrouped
training) or a Python dict from group id to vector, modelled as an
association list. -/
inductive Weights where
  | dense (w : Row)
  | grouped (m : List (ℤ × Row))
deriving DecidableEq

/-- A ranking model instance after fitting: its `model_str` and its
`weights` attribute. -/
structure RankingModel where
  model_str : String
  weights : Weights
deriving DecidableEq

/-- `RankingModel.__init__`: accepts `"ranksvm"` and `"lp"`, raises
`ValueError` for `"lambdamart"` (no longer supported) and for any other
string. -/
def RankingModel.init (model_str : String) : Except PyErr Unit :=
  if model_str = "ranksvm" then .ok ()
  else if model_str = "lp" then .ok ()
  else if model_str = "lambdamart" then
    .error (.valueError "LambdaMART is no longer supported")
  else .error (.valueError ("Unknown regressor model: " ++ model_str))

/-- The shared dense/grouped scoring logic of `RankingModel.predict`
(lines 91-100): negated dot product against the selected weight vector;
for a dict artifact, a group id absent from the dict (in particular the
Python value `None`, modelled as `Option.none`) yields the sentinel
`1000000.0`. -/
def predictCore (w : Weights) (x : Row) (group_id : Option ℤ) : ℚ :=
  match w with
  | .dense v => -(dot x v)
  | .grouped m =>
    match group_id with
    | none => 1000000
    | some g =>
      match m.lookup g with
      | none => 1000000
      | some v => -(dot x v)

/-- `RankingModel.predict` for a single feature row: dispatches on
`model_str` exactly as the source does. -/
def RankingModel.predict (m : RankingModel) (x : Row) (group_id : Option ℤ) :
    Except PyErr ℚ :=
  if m.model_str = "ranksvm" ∨ m.model_str = "lp" then
    .ok (predictCore m.weights x group_id)
  else if m.model_str = "lambdamart" then
    .error (.valueError "LambdaMART is no longer supported")
  else .error (.valueError ("Unknown ranking model: " ++ m.model_str))

/-- `RankingModel._to_classification`: the loop appends, for each judgment
whose two rows differ, the example `X[i]-X[j]` with label `1` and the
example `X[j]-X[i]` with label `-1`, each with sample weight `importance`;
judgments with `np.array_equal(X[i], X[j])` are skipped. -/
def toClassification (X : Mat) (pairs : List Judgment) :
    List Row × List ℤ × List ℚ :=
  pairs.foldl
    (fun acc p =>
      if row X p.i = row X p.j then acc
      else
        (acc.1 ++ [rowSub (row X p.i) (row X p.j),
                   rowSub (row X p.j) (row X p.i)],
         acc.2.1 ++ [(1 : ℤ), (-1 : ℤ)],
         acc.2.2 ++ [p.importance, p.importance]))
    ([], [], [])

/-- The group id handed to `predict` inside `kendall_tau`:
`group_ids[i] if group_ids is not None else None`. -/
def gidOf (group_ids : Option (List ℤ)) (i : ℕ) : Option ℤ :=
  match group_ids with
  | none => none
  | some l => some (l.getD i 0)

/-- The loop body of `RankingModel.kendall_tau`, threading the accumulators
`(concordant_pairs, discordant_pairs, total_pairs)`; the `assert
relation >= 0` is modelled as an `assertionError`. -/
def kendallTauLoop (m : RankingModel) (X : Mat) (gids : Option (List ℤ)) :
    List Judgment → ℚ → ℚ → ℚ → Except PyErr (ℚ × ℚ × ℚ)
  | [], c, d, t => .ok (c, d, t)
  | p :: rest, c, d, t =>
    if row X p.i = row X p.j then kendallTauLoop m X gids rest c d t
    else
      match m.predict (row X p.i) (gidOf gids p.i) with
      | .error e => .error e
      | .ok ih =>
        match m.predict (row X p.j) (gidOf gids p.j) with
        | .error e => .error e
        | .ok jh =>
          if p.relation < 0 then .error .assertionError
          else if (0 < p.relation ∧ ih - jh < 0) ∨
              (p.relation = 0 ∧ ih - jh ≤ 0) then
            kendallTauLoop m X gids rest (c + p.importance) d
              (t + p.importance)
          else kendallTauLoop m X gids rest c (d + p.importance)
            (t + p.importance)

/-- `RankingModel.kendall_tau`: runs the loop, then divides; the final
division with `total_pairs == 0` is a Python `ZeroDivisionError`. -/
def RankingModel.kendall_tau (m : RankingModel) (X : Mat)
    (pairs : List Judgment) (group_ids : Option (List ℤ)) :
    Except PyErr ℚ :=
  match kendallTauLoop m X group_ids pairs 0 0 0 with
  | .error e => .error e
  | .ok (c, d, t) =>
    if t = 0 then .error .zeroDivisionError else .ok ((c - d) / t)

/-- The pulp variables created by `LP.fit`, identified by their name
strings, which the code builds injectively from the data below:
`w({g})({k})`, `abs_w({g})({k})`, and `z{i}_{j}` for the first slack of a
pair `(i, j)` resp. `z{i}_{j}_{u}` with a fresh suffix `u` for repeats. -/
inductive Var where
  | w (g : ℤ) (k : ℕ)
  | abs_w (g : ℤ) (k : ℕ)
  | slack (i j : ℕ) (uid : Option ℕ)
deriving DecidableEq

/-- The lower bound declared for each pulp variable: the weights are free,
the absolute-value shadows and the slacks have `lowBound=0`. -/
def Var.lowBound : Var → Option ℚ
  | .w _ _ => none
  | .abs_w _ _ => some 0
  | .slack _ _ _ => some 0

/-- An affine pulp expression: a list of `(coefficient, variable)` terms in
construction order, plus a constant. -/
abbrev LinExpr := List (ℚ × Var) × ℚ

/-- A pulp constraint `lhs ≥ rhs`, kept exactly as written in the code. -/
abbrev Constraint := LinExpr × LinExpr

/-- Value of an affine expression under a variable assignment. -/
def evalExpr (sol : Var → ℚ) (e : LinExpr) : ℚ :=
  (e.1.map fun t => t.1 * sol t.2).sum + e.2

/-- Whether a constraint holds under a variable assignment. -/
def constrHolds (sol : Var → ℚ) (c : Constraint) : Prop :=
  evalExpr sol c.2 ≤ evalExpr sol c.1

/-- The effective group id list: `LP.fit` replaces an absent `group_ids`
with `[MOCK_GROUP_ID] * X.shape[0]` where `MOCK_GROUP_ID = 0`. -/
def effGroupIds (X : Mat) (group_ids : Option (List ℤ)) : List ℤ :=
  match group_ids with
  | none => List.replicate X.length 0
  | some l => l

/-- The distinct group ids, `set(group_ids)`, as a duplicate-free list
keeping first occurrences. -/
def dedupFirst : List ℤ → List ℤ
  | [] => []
  | a :: rest => a :: ((dedupFirst rest).filter (· ≠ a))

/-- The per-group setup constraints of `LP.fit`: for every group and every
feature index `k`, `abs_w[g][k] ≥ w[g][k]` and `abs_w[g][k] ≥ -w[g][k]`. -/
def groupConstraints (D : ℕ) (groups : List ℤ) : List Constraint :=
  groups.flatMap fun g =>
    (List.range D).flatMap fun k =>
      [(([((1 : ℚ), Var.abs_w g k)], 0), ([((1 : ℚ), Var.w g k)], 0)),
       (([((1 : ℚ), Var.abs_w g k)], 0), ([((-1 : ℚ), Var.w g k)], 0))]

/-- The constraint `LP.fit` adds for one valid judgment, as written:
`lpSum(w[g(i)][k]*X[i][k] - w[g(j)][k]*X[j][k] for k) ≥ relation - slack`. -/
def judgConstraint (X : Mat) (egids : List ℤ) (p : Judgment) (sv : Var) :
    Constraint :=
  (((List.range (ncols X)).flatMap fun k =>
      [(entry X p.i k, Var.w (egids.getD p.i 0) k),
       (-(entry X p.j k), Var.w (egids.getD p.j 0) k)], 0),
   ([((-1 : ℚ), sv)], (p.relation : ℚ)))

/-- The mutable state of the judgment loop in `LP.fit`: the accumulated
constraints, the `slacks` list of `(variable, importance)`, the
`seen_pairs` set, and the fresh-suffix counter modelling `uuid4()`. -/
structure LPState where
  constraints : List Constraint
  slacks : List (Var × ℚ)
  seen : List (ℕ × ℕ)
  counter : ℕ
deriving DecidableEq

/-- One iteration of the judgment loop of `LP.fit`: degenerate judgments
(`np.array_equal(X[i], X[j])`) are skipped; otherwise a slack variable is
created (with a fresh name suffix when `(i, j)` was already seen), the
judgment's constraint is added, and `(i, j)` is added to `seen_pairs`. -/
def judgmentStep (X : Mat) (egids : List ℤ) (s : LPState) (p : Judgment) :
    LPState :=
  if row X p.i = row X p.j then s
  else
    let fresh := decide ((p.i, p.j) ∈ s.seen)
    let sv : Var :=
      if (p.i, p.j) ∈ s.seen then .slack p.i p.j (some s.counter)
      else .slack p.i p.j none
    { constraints := s.constraints ++ [judgConstraint X egids p sv],
      slacks := s.slacks ++ [(sv, p.importance)],
      seen := if (p.i, p.j) ∈ s.seen then s.seen else s.seen ++ [(p.i, p.j)],
      counter := if fresh then s.counter + 1 else s.counter }

/-- The assembled LP problem: the constraint list, the slack variables with
their importances, and the minimized objective. -/
structure LPProblem where
  constraints : List Constraint
  slacks : List (Var × ℚ)
  objective : LinExpr
deriving DecidableEq

/-- The objective of `LP.fit`:
`C * lpSum(importance * slack) + lpSum(abs_w[g][k] for k for g)`; as an
affine expression, each slack carries the coefficient `C * importance`. -/
def lpObjective (D : ℕ) (groups : List ℤ) (C : ℚ)
    (slacks : List (Var × ℚ)) : LinExpr :=
  (slacks.map (fun sv => (C * sv.2, sv.1)) ++
     (List.range D).flatMap (fun k => groups.map fun g => ((1 : ℚ), Var.abs_w g k)),
   0)

/-- The state after the judgment loop of `LP.fit`, starting from the
per-group setup constraints, an empty `slacks` list, an empty `seen_pairs`
set and a fresh counter. -/
def lpLoop (X : Mat) (group_ids : Option (List ℤ))
    (pairs : List Judgment) : LPState :=
  pairs.foldl (judgmentStep X (effGroupIds X group_ids))
    ⟨groupConstraints (ncols X) (dedupFirst (effGroupIds X group_ids)),
     [], [], 0⟩

/-- `LP.fit` up to (but not including) the external solver call: the whole
LP problem handed to the solver. -/
def buildProblem (X : Mat) (pairs : List Judgment)
    (group_ids : Option (List ℤ)) (C : ℚ) : LPProblem :=
  ⟨(lpLoop X group_ids pairs).constraints,
   (lpLoop X group_ids pairs).slacks,
   lpObjective (ncols X) (dedupFirst (effGroupIds X group_ids)) C
     (lpLoop X group_ids pairs).slacks⟩

/-- The weight artifact `LP.fit` reads back from the solved problem: a dict
of per-group vectors when `group_ids` was given, else the plain vector of
the mock group. -/
def extractWeights (X : Mat) (group_ids : Option (List ℤ))
    (sol : Var → ℚ) : Weights :=
  match group_ids with
  | some l =>
    .grouped ((dedupFirst l).map fun g =>
      (g, (List.range (ncols X)).map fun k => sol (Var.w g k)))
  | none => .dense ((List.range (ncols X)).map fun k => sol (Var.w 0 k))

/-- `LP.fit` with the deterministic external LP solver abstracted as a
function from the assembled problem to a variable assignment; the default
hyperparameter is `C = 10`. -/
def lpFit (X : Mat) (pairs : List Judgment) (group_ids : Option (List ℤ))
    (C : ℚ) (solver : LPProblem → Var → ℚ) : Weights :=
  extractWeights X group_ids (solver (buildProblem X pairs group_ids C))

/-- `RankingModel.fit` with the two deterministic external trainers
abstracted as functions: `svmTrainer` maps the reduced classification data
to the single coefficient row of the fitted `LinearSVC` (binary labels give
one row, which the code unwraps), `lpSolver` is as in `lpFit`. -/
def RankingModel.fit (model_str : String) (X : Mat)
    (pairs : List Judgment) (group_ids : Option (List ℤ))
    (svmTrainer : List Row × List ℤ × List ℚ → Row)
    (lpSolver : LPProblem → Var → ℚ) : Except PyErr Weights :=
  if model_str = "ranksvm" then
    .ok (.dense (svmTrainer (toClassification X pairs)))
  else if model_str = "lp" then
    .ok (lpFit X pairs group_ids 10 lpSolver)
  else if model_str = "lambdamart" then
    .error (.valueError "LambdaMART is no longer supported")
  else .error (.valueError ("Unknown ranking model: " ++ model_str))

/-! Spec-side vocabulary used to state the claims about `kendall_tau`:
validity of a judgment, the score difference, the code's concordance test,
and the three weighted counts, defined directly by filtered sums rather
than through the loop. -/

/-- A judgment is valid (non-degenerate) when its two rows differ. -/
def isValid (X : Mat) (p : Judgment) : Bool := decide (row X p.i ≠ row X p.j)

/-- The score difference `predict(X[i]) - predict(X[j])` used by
`kendall_tau`, expressed through the shared scoring core. -/
def scoreDiff (w : Weights) (X : Mat) (gids : Option (List ℤ))
    (p : Judgment) : ℚ :=
  predictCore w (row X p.i) (gidOf gids p.i) -
    predictCore w (row X p.j) (gidOf gids p.j)

/-- The code's concordance test:
`(relation > 0 and diff < 0) or (relation == 0 and diff <= 0)`. -/
def concB (w : Weights) (X : Mat) (gids : Option (List ℤ))
    (p : Judgment) : Bool :=
  decide ((0 < p.relation ∧ scoreDiff w X gids p < 0) ∨
    (p.relation = 0 ∧ scoreDiff w X gids p ≤ 0))

/-- Total importance of the valid judgments (`total_pairs`). -/
def totSum (X : Mat) (pairs : List Judgment) : ℚ :=
  ((pairs.filter fun p => isValid X p).map Judgment.importance).sum

/-- Weighted concordant count (`concordant_pairs`). -/
def concSum (w : Weights) (X : Mat) (gids : Option (List ℤ))
    (pairs : List Judgment) : ℚ :=
  ((pairs.filter fun p => isValid X p && concB w X gids p).map
    Judgment.importance).sum

/-- Weighted discordant count (`discordant_pairs`). -/
def discSum (w : Weights) (X : Mat) (gids : Option (List ℤ))
    (pairs : List Judgment) : ℚ :=
  ((pairs.filter fun p => isValid X p && !concB w X gids p).map
    Judgment.importance).sum

/-- The transformation of claim C9: swap the two row indices and negate the
relation, keeping the importance. -/
def swapJ (p : Judgment) : Judgment := ⟨p.j, p.i, -p.relation, p.importance⟩

/-- The synthetic examples the classification reduction should emit,
stated per judgment: the two difference rows for a valid judgment, nothing
for a degenerate one. -/
def clsExamples (X : Mat) (pairs : List Judgment) : List Row :=
  pairs.flatMap fun p =>
    if isValid X p then
      [rowSub (row X p.i) (row X p.j), rowSub (row X p.j) (row X p.i)]
    else []

/-- The labels the classification reduction should emit per judgment. -/
def clsLabels (X : Mat) (pairs : List Judgment) : List ℤ :=
  pairs.flatMap fun p => if isValid X p then [(1 : ℤ), (-1 : ℤ)] else []

/-- The sample weights the classification reduction should emit per
judgment. -/
def clsWeights (X : Mat) (pairs : List Judgment) : List ℚ :=
  pairs.flatMap fun p =>
    if isValid X p then [p.importance, p.importance] else []

/-- Modelled from the claim's words, for comparison with the source: the
concordance value claim C2 describes, identical to the code's except that a
judgment counts as concordant when `(relation > 0 and diff > 0) or
(relation == 0 and diff >= 0)`. -/
def claimedConcB (w : Weights) (X : Mat) (gids : Option (List ℤ))
    (p : Judgment) : Bool :=
  decide ((0 < p.relation ∧ 0 < scoreDiff w X gids p) ∨
    (p.relation = 0 ∧ 0 ≤ scoreDiff w X gids p))

/-- Modelled from the claim's words, for comparison with the source: the
value `(concordant - discordant) / total_importance` under the claimed
concordance test. -/
def kendallTauClaimed (m : RankingModel) (X : Mat) (pairs : List Judgment)
    (gids : Option (List ℤ)) : ℚ :=
  (((pairs.filter fun p => isValid X p && claimedConcB m.weights X gids p).map
      Judgment.importance).sum -
    ((pairs.filter fun p =>
        isValid X p && !claimedConcB m.weights X gids p).map
      Judgment.importance).sum) / totSum X pairs

/-- Invariant of the judgment loop of `LP.fit` guaranteeing that the slack
variables never collide: every slack in the state is a slack variable whose
first-occurrence form is recorded in `seen_pairs` and whose fresh-suffix
form carries a suffix below the counter, and the slack variables are
pairwise distinct. -/
def SlackInv (s : LPState) : Prop :=
  (∀ v ∈ s.slacks.map Prod.fst, ∃ i j uid, v = Var.slack i j uid ∧
      (uid = none → (i, j) ∈ s.seen) ∧ ∀ n, uid = some n → n < s.counter) ∧
  (s.slacks.map Prod.fst).Nodup

/-- On a valid backend, `predict` succeeds with the shared scoring core. -/
theorem predict_ok (m : RankingModel)
    (hs : m.model_str = "ranksvm" ∨ m.model_str = "lp") (x : Row)
    (g : Option ℤ) : m.predict x g = .ok (predictCore m.weights x g) := by
  rcases hs with hs | hs <;> simp [RankingModel.predict, hs]

/-- C1 counterexample: on the fitted dense artifact `[1]` and the row `[1]`
the ranksvm backend's `predict` returns `-1`, not the dot product `1`
claimed for it. -/
theorem predict_not_dot_counterexample :
    (RankingModel.mk "ranksvm" (Weights.dense [1])).predict [1] none
        = .ok (-1) ∧
      dot [1] [1] = 1 ∧
      (RankingModel.mk "ranksvm" (Weights.dense [1])).predict [1] none
        ≠ .ok (dot [1] [1]) := by
  refine ⟨by simp [RankingModel.predict, predictCore, dot], by norm_num [dot], ?_⟩
  simp [RankingModel.predict, predictCore, dot]
  norm_num

/-- C1 (amended): on both the ranksvm and lp backends, `predict` on a dense
artifact, and on a grouped artifact at a group seen in training, returns
the negated dot product `-(X · w)`; the returned score of a better row is
therefore lower. -/
theorem predict_neg_dot (s : String) (hs : s = "ranksvm" ∨ s = "lp")
    (x w : Row) (g : Option ℤ) (m : List (ℤ × Row)) (gid : ℤ)
    (hg : m.lookup gid = some w) :
    (RankingModel.mk s (.dense w)).predict x g = .ok (-(dot x w)) ∧
      (RankingModel.mk s (.grouped m)).predict x (some gid)
        = .ok (-(dot x w)) := by
  rcases hs with hs | hs <;> subst hs <;>
    constructor <;> simp [RankingModel.predict, predictCore, hg]

/-- C1 witness: the amended statement at a concrete input. -/
theorem predict_neg_dot_witness :
    (RankingModel.mk "lp" (.dense [2, 3])).predict [1, 1] none
        = .ok (-(dot [1, 1] [2, 3])) ∧
      (RankingModel.mk "lp" (.grouped [(4, [2, 3])])).predict [1, 1] (some 4)
        = .ok (-(dot [1, 1] [2, 3])) :=
  predict_neg_dot "lp" (Or.inr rfl) [1, 1] [2, 3] none [(4, [2, 3])] 4 rfl

/-- C4: on both valid backends, a grouped artifact queried at a group id
absent from the dict (including the absent/None id) returns the sentinel
worst score `1000000.0` and never raises. -/
theorem predict_unseen_group_sentinel (s : String)
    (hs : s = "ranksvm" ∨ s = "lp") (m : List (ℤ × Row)) (x : Row)
    (g : Option ℤ) (hg : ∀ gid, g = some gid → m.lookup gid = none) :
    (RankingModel.mk s (.grouped m)).predict x g = .ok 1000000 := by
  rcases hs with hs | hs <;> subst hs <;> cases g with
  | none => simp [RankingModel.predict, predictCore]
  | some gid => simp [RankingModel.predict, predictCore, hg gid rfl]

/-- C4 witness: concrete unseen group id. -/
theorem predict_unseen_group_sentinel_witness :
    (RankingModel.mk "lp" (.grouped [(3, [2])])).predict [1] (some 5)
      = .ok 1000000 :=
  predict_unseen_group_sentinel "lp" (Or.inr rfl) [(3, [2])] [1] (some 5)
    (by intro gid h; cases h; rfl)

/-- C10: when the artifact is a plain dense vector, `predict` is completely
independent of the group id argument, whatever the model string. -/
theorem predict_dense_ignores_group (s : String) (w : Row) (x : Row)
    (g1 g2 : Option ℤ) :
    (RankingModel.mk s (.dense w)).predict x g1
      = (RankingModel.mk s (.dense w)).predict x g2 := rfl

/-- C5 counterexample: constructing with the boosted-ranker strategy
`"lambdamart"` does not succeed; it raises
`ValueError("LambdaMART is no longer supported")` (and not a
configuration-specific error type). -/
theorem init_lambdamart_counterexample :
    RankingModel.init "lambdamart"
      = .error (.valueError "LambdaMART is no longer supported") := rfl

/-- C5 (amended): construction succeeds exactly for `"ranksvm"` and
`"lp"`; `"lambdamart"` raises `ValueError` saying it is no longer
supported, and every other strategy string raises
`ValueError("Unknown regressor model: ...")`. -/
theorem init_characterization :
    RankingModel.init "ranksvm" = .ok () ∧
      RankingModel.init "lp" = .ok () ∧
      RankingModel.init "lambdamart"
        = .error (.valueError "LambdaMART is no longer supported") ∧
      ∀ s : String, s ≠ "ranksvm" → s ≠ "lp" → s ≠ "lambdamart" →
        RankingModel.init s
          = .error (.valueError ("Unknown regressor model: " ++ s)) := by
  refine ⟨rfl, rfl, rfl, ?_⟩
  intro s h1 h2 h3
  simp [RankingModel.init, h1, h2, h3]

/-- C5 witness: the unknown-strategy branch at a concrete string. -/
theorem init_characterization_witness :
    RankingModel.init "boost"
      = .error (.valueError ("Unknown regressor model: " ++ "boost")) :=
  init_characterization.2.2.2 "boost" (by decide) (by decide) (by decide)

theorem toClassification_loop_append (X : Mat) (pairs : List Judgment)
    (a : List Row × List ℤ × List ℚ) :
    pairs.foldl
      (fun acc p =>
        if row X p.i = row X p.j then acc
        else
          (acc.1 ++ [rowSub (row X p.i) (row X p.j),
                     rowSub (row X p.j) (row X p.i)],
           acc.2.1 ++ [(1 : ℤ), (-1 : ℤ)],
           acc.2.2 ++ [p.importance, p.importance])) a
      = (a.1 ++ clsExamples X pairs, a.2.1 ++ clsLabels X pairs,
         a.2.2 ++ clsWeights X pairs) := by
  induction pairs generalizing a with
  | nil => simp [clsExamples, clsLabels, clsWeights]
  | cons p rest ih =>
    by_cases hp : row X p.i = row X p.j <;>
      simp [hp, ih, clsExamples, clsLabels, clsWeights, isValid]

/-- C6: `_to_classification` emits, judgment by judgment, exactly the two
opposite-signed difference examples with the judgment's importance as
sample weight for each valid judgment, and nothing at all for a judgment
whose two rows are equal. -/
theorem toClassification_characterization (X : Mat) (pairs : List Judgment) :
    toClassification X pairs
      = (clsExamples X pairs, clsLabels X pairs, clsWeights X pairs) := by
  simpa [toClassification] using
    toClassification_loop_append X pairs ([], [], [])

theorem toClassification_append_degenerate (X : Mat) (P D : List Judgment)
    (hD : ∀ p ∈ D, row X p.i = row X p.j) :
    toClassification X (P ++ D) = toClassification X P := by
  unfold toClassification
  rw [List.foldl_append]
  induction D with
  | nil => rfl
  | cons p rest ih =>
    rw [List.foldl_cons, if_pos (hD p (List.mem_cons_self p rest))]
    exact ih fun q hq => hD q (List.mem_cons_of_mem p hq)

theorem judgmentStep_degenerate (X : Mat) (egids : List ℤ) (s : LPState)
    (p : Judgment) (hp : row X p.i = row X p.j) :
    judgmentStep X egids s p = s := by
  simp [judgmentStep, hp]

theorem lpLoop_append_degenerate (X : Mat) (gids : Option (List ℤ))
    (P D : List Judgment) (hD : ∀ p ∈ D, row X p.i = row X p.j) :
    lpLoop X gids (P ++ D) = lpLoop X gids P := by
  unfold lpLoop
  rw [List.foldl_append]
  induction D with
  | nil => rfl
  | cons p rest ih =>
    rw [List.foldl_cons,
      judgmentStep_degenerate X _ _ p (hD p (List.mem_cons_self p rest))]
    exact ih fun q hq => hD q (List.mem_cons_of_mem p hq)

theorem buildProblem_append_degenerate (X : Mat) (P D : List Judgment)
    (gids : Option (List ℤ)) (C : ℚ)
    (hD : ∀ p ∈ D, row X p.i = row X p.j) :
    buildProblem X (P ++ D) gids C = buildProblem X P gids C := by
  unfold buildProblem
  rw [lpLoop_append_degenerate X gids P D hD]

/-- C8: appending any number of degenerate judgments (equal feature rows)
to the training pairs leaves the fitted weight artifact unchanged, for
every strategy (in particular ranksvm and lp) and every deterministic
external trainer/solver: the degenerate judgments are dropped before the
external call, so its input is identical. -/
theorem fit_ignores_degenerate (s : String) (X : Mat)
    (gids : Option (List ℤ)) (P D : List Judgment)
    (hD : ∀ p ∈ D, row X p.i = row X p.j)
    (svmTrainer : List Row × List ℤ × List ℚ → Row)
    (lpSolver : LPProblem → Var → ℚ) :
    RankingModel.fit s X (P ++ D) gids svmTrainer lpSolver
      = RankingModel.fit s X P gids svmTrainer lpSolver := by
  unfold RankingModel.fit lpFit
  rw [toClassification_append_degenerate X P D hD,
    buildProblem_append_degenerate X P D gids 10 hD]

theorem kendallTauLoop_eq (m : RankingModel)
    (hs : m.model_str = "ranksvm" ∨ m.model_str = "lp") (X : Mat)
    (gids : Option (List ℤ)) (pairs : List Judgment)
    (hrel : ∀ p ∈ pairs, 0 ≤ p.relation) (c d t : ℚ) :
    kendallTauLoop m X gids pairs c d t
      = .ok (c + concSum m.weights X gids pairs,
             d + discSum m.weights X gids pairs,
             t + totSum X pairs) := by
  induction pairs generalizing c d t with
  | nil => simp [kendallTauLoop, concSum, discSum, totSum]
  | cons p rest ih =>
    have hrest : ∀ q ∈ rest, 0 ≤ q.relation :=
      fun q hq => hrel q (List.mem_cons_of_mem p hq)
    by_cases hp : row X p.i = row X p.j
    · have hv : isValid X p = false := by simp [isValid, hp]
      rw [kendallTauLoop, if_pos hp, ih hrest]
      simp [concSum, discSum, totSum, List.filter_cons, hv]
    · have hv : isValid X p = true := by simp [isValid, hp]
      have hnot : ¬ p.relation < 0 :=
        not_lt.mpr (hrel p (List.mem_cons_self p rest))
      have e3 : totSum X (p :: rest) = p.importance + totSum X rest := by
        simp [totSum, List.filter_cons, hv]
      rw [kendallTauLoop, if_neg hp, predict_ok m hs, predict_ok m hs]
      by_cases hc : (0 < p.relation ∧ scoreDiff m.weights X gids p < 0) ∨
          (p.relation = 0 ∧ scoreDiff m.weights X gids p ≤ 0)
      · have hc' : (0 < p.relation ∧
            predictCore m.weights (row X p.i) (gidOf gids p.i) -
              predictCore m.weights (row X p.j) (gidOf gids p.j) < 0) ∨
            (p.relation = 0 ∧
              predictCore m.weights (row X p.i) (gidOf gids p.i) -
                predictCore m.weights (row X p.j) (gidOf gids p.j) ≤ 0) := hc
        have hcB : concB m.weights X gids p = true := decide_eq_true hc
        have e1 : concSum m.weights X gids (p :: rest)
            = p.importance + concSum m.weights X gids rest := by
          simp [concSum, List.filter_cons, hv, hcB]
        have e2 : discSum m.weights X gids (p :: rest)
            = discSum m.weights X gids rest := by
          simp [discSum, List.filter_cons, hv, hcB]
        simp only [if_neg hnot, if_pos hc']
        rw [ih hrest, e1, e2, e3, add_assoc, add_assoc]
      · have hc' : ¬ ((0 < p.relation ∧
            predictCore m.weights (row X p.i) (gidOf gids p.i) -
              predictCore m.weights (row X p.j) (gidOf gids p.j) < 0) ∨
            (p.relation = 0 ∧
              predictCore m.weights (row X p.i) (gidOf gids p.i) -
                predictCore m.weights (row X p.j) (gidOf gids p.j) ≤ 0)) := hc
        have hcB : concB m.weights X gids p = false := decide_eq_false hc
        have e1 : concSum m.weights X gids (p :: rest)
            = concSum m.weights X gids rest := by
          simp [concSum, List.filter_cons, hv, hcB]
        have e2 : discSum m.weights X gids (p :: rest)
            = p.importance + discSum m.weights X gids rest := by
          simp [discSum, List.filter_cons, hv, hcB]
        simp only [if_neg hnot, if_neg hc']
        rw [ih hrest, e1, e2, e3, add_assoc, add_assoc]

theorem concSum_add_discSum (w : Weights) (X : Mat)
    (gids : Option (List ℤ)) (pairs : List Judgment) :
    concSum w X gids pairs + discSum w X gids pairs = totSum X pairs := by
  induction pairs with
  | nil => simp [concSum, discSum, totSum]
  | cons p rest ih =>
    by_cases hv : isValid X p
    · by_cases hcB : concB w X gids p
      · simp [concSum, discSum, totSum, List.filter_cons, hv, hcB] at ih ⊢
        linarith
      · simp only [Bool.not_eq_true] at hcB
        simp [concSum, discSum, totSum, List.filter_cons, hv, hcB] at ih ⊢
        linarith
    · simp only [Bool.not_eq_true] at hv
      simpa [concSum, discSum, totSum, List.filter_cons, hv] using ih

theorem concSum_nonneg (w : Weights) (X : Mat) (gids : Option (List ℤ))
    (pairs : List Judgment) (himp : ∀ p ∈ pairs, 0 ≤ p.importance) :
    0 ≤ concSum w X gids pairs := by
  refine List.sum_nonneg ?_
  intro x hx
  rcases List.mem_map.mp hx with ⟨p, hp, rfl⟩
  exact himp p (List.mem_of_mem_filter hp)

theorem discSum_nonneg (w : Weights) (X : Mat) (gids : Option (List ℤ))
    (pairs : List Judgment) (himp : ∀ p ∈ pairs, 0 ≤ p.importance) :
    0 ≤ discSum w X gids pairs := by
  refine List.sum_nonneg ?_
  intro x hx
  rcases List.mem_map.mp hx with ⟨p, hp, rfl⟩
  exact himp p (List.mem_of_mem_filter hp)

/-- C2 counterexample: weights `[1]`, rows `X = [[1], [0]]`, the single
judgment `(0, 1, 1, 1)`. The Scorer gives `diff = -1`, so under the claimed
test (`diff > 0` for `relation > 0`) the judgment would be discordant and
the value `-1`, but the code returns `1`. -/
theorem kendall_tau_claimed_counterexample :
    (RankingModel.mk "ranksvm" (.dense [1])).kendall_tau [[1], [0]]
        [⟨0, 1, 1, 1⟩] none = .ok 1 ∧
      kendallTauClaimed (RankingModel.mk "ranksvm" (.dense [1])) [[1], [0]]
        [⟨0, 1, 1, 1⟩] none = -1 ∧
      (Except.ok (1 : ℚ) : Except PyErr ℚ) ≠ .ok (-1) := by
  refine ⟨?_, ?_, by simp; norm_num⟩
  · norm_num [RankingModel.kendall_tau, kendallTauLoop, RankingModel.predict,
      predictCore, dot, row, gidOf]
  · norm_num [kendallTauClaimed, claimedConcB, scoreDiff, isValid, totSum,
      predictCore, dot, row, gidOf]

/-- C2 (amended): on a valid backend, with the documented preconditions
(`relation ≥ 0` for every judgment, nonnegative importances, nonzero total
importance of the valid judgments), `kendall_tau` computes
`diff = score(i) - score(j)` through the Scorer for every non-degenerate
judgment, counts it as concordant (weighted by importance) exactly when
`(relation > 0 and diff < 0) or (relation == 0 and diff <= 0)`, otherwise
as discordant, and returns `(concordant - discordant) / total_importance`,
a value in `[-1, 1]`. -/
theorem kendall_tau_characterization (m : RankingModel)
    (hs : m.model_str = "ranksvm" ∨ m.model_str = "lp") (X : Mat)
    (gids : Option (List ℤ)) (pairs : List Judgment)
    (hrel : ∀ p ∈ pairs, 0 ≤ p.relation)
    (himp : ∀ p ∈ pairs, 0 ≤ p.importance)
    (htot : totSum X pairs ≠ 0) :
    m.kendall_tau X pairs gids
        = .ok ((concSum m.weights X gids pairs -
            discSum m.weights X gids pairs) / totSum X pairs) ∧
      -1 ≤ (concSum m.weights X gids pairs -
          discSum m.weights X gids pairs) / totSum X pairs ∧
      (concSum m.weights X gids pairs -
          discSum m.weights X gids pairs) / totSum X pairs ≤ 1 := by
  have hcd := concSum_add_discSum m.weights X gids pairs
  have hc0 := concSum_nonneg m.weights X gids pairs himp
  have hd0 := discSum_nonneg m.weights X gids pairs himp
  have ht0 : 0 < totSum X pairs := by
    rcases lt_or_eq_of_le (by linarith : (0 : ℚ) ≤ totSum X pairs) with h | h
    · exact h
    · exact absurd h.symm htot
  refine ⟨?_, ?_, ?_⟩
  · rw [RankingModel.kendall_tau, kendallTauLoop_eq m hs X gids pairs hrel]
    simp only [zero_add]
    rw [if_neg htot]
  · rw [le_div_iff₀ ht0]
    linarith
  · rw [div_le_one ht0]
    linarith

/-- C2 witness: the amended characterization at the concrete input of the
counterexample, where the value is `1`. -/
theorem kendall_tau_characterization_witness :
    (RankingModel.mk "ranksvm" (.dense [1])).kendall_tau [[1], [0]]
        [⟨0, 1, 1, 1⟩] none
      = .ok ((concSum (Weights.dense [1]) [[1], [0]] none [⟨0, 1, 1, 1⟩] -
          discSum (Weights.dense [1]) [[1], [0]] none [⟨0, 1, 1, 1⟩]) /
        totSum [[1], [0]] [⟨0, 1, 1, 1⟩]) :=
  (kendall_tau_characterization (RankingModel.mk "ranksvm" (.dense [1]))
    (Or.inl rfl) [[1], [0]] none [⟨0, 1, 1, 1⟩]
    (by intro p hp; rw [List.mem_singleton] at hp; subst hp; norm_num)
    (by intro p hp; rw [List.mem_singleton] at hp; subst hp; norm_num)
    (by norm_num [totSum, isValid, row])).1

/-- C3 counterexample: on an empty judgment list the code divides by zero
(a `ZeroDivisionError`), and does not raise the `EmptyInputError` the claim
names. -/
theorem kendall_tau_empty_counterexample :
    (RankingModel.mk "ranksvm" (.dense [1])).kendall_tau [[1]] [] none
        = .error .zeroDivisionError ∧
      (RankingModel.mk "ranksvm" (.dense [1])).kendall_tau [[1]] [] none
        ≠ .error .emptyInputError := by
  constructor
  · norm_num [RankingModel.kendall_tau, kendallTauLoop]
  · norm_num [RankingModel.kendall_tau, kendallTauLoop]
    decide

/-- C3 (amended): on a valid backend, whenever the valid judgments have
zero total importance — in particular on an empty judgment list — the
evaluator performs the division by zero and fails with `ZeroDivisionError`
(no `EmptyInputError` exists in the code). -/
theorem kendall_tau_zero_total (m : RankingModel)
    (hs : m.model_str = "ranksvm" ∨ m.model_str = "lp") (X : Mat)
    (gids : Option (List ℤ)) (pairs : List Judgment)
    (hrel : ∀ p ∈ pairs, 0 ≤ p.relation) (htot : totSum X pairs = 0) :
    m.kendall_tau X pairs gids = .error .zeroDivisionError := by
  rw [RankingModel.kendall_tau, kendallTauLoop_eq m hs X gids pairs hrel]
  simp only [zero_add]
  rw [if_pos htot]

/-- C3 witness: the empty judgment list. -/
theorem kendall_tau_zero_total_witness :
    (RankingModel.mk "lp" (.dense [1])).kendall_tau [[1]] [] none
      = .error .zeroDivisionError :=
  kendall_tau_zero_total (RankingModel.mk "lp" (.dense [1])) (Or.inr rfl)
    [[1]] none [] (by intro p hp; cases hp) (by norm_num [totSum])

theorem isValid_swap (X : Mat) (p : Judgment) :
    isValid X (swapJ p) = isValid X p := by
  simp only [isValid, swapJ]
  exact decide_eq_decide.mpr ⟨fun h => fun e => h e.symm, fun h e => h e.symm⟩

theorem scoreDiff_swap (w : Weights) (X : Mat) (gids : Option (List ℤ))
    (p : Judgment) : scoreDiff w X gids (swapJ p) = -(scoreDiff w X gids p) := by
  simp only [scoreDiff, swapJ]
  ring

theorem concB_swap (w : Weights) (X : Mat) (gids : Option (List ℤ))
    (p : Judgment) (h0 : p.relation = 0) (hne : scoreDiff w X gids p ≠ 0) :
    concB w X gids (swapJ p) = !concB w X gids p := by
  rcases lt_or_gt_of_ne hne with hlt | hgt
  · have h1 : concB w X gids (swapJ p) = false := by
      apply decide_eq_false
      rw [scoreDiff_swap]
      simp [swapJ, h0]
      linarith
    have h2 : concB w X gids p = true := by
      apply decide_eq_true
      exact Or.inr ⟨h0, le_of_lt hlt⟩
    rw [h1, h2]
    rfl
  · have h1 : concB w X gids (swapJ p) = true := by
      apply decide_eq_true
      rw [scoreDiff_swap]
      exact Or.inr ⟨by simp [swapJ, h0], by linarith⟩
    have h2 : concB w X gids p = false := by
      apply decide_eq_false
      rw [h0]
      simp
      linarith
    rw [h1, h2]
    rfl

theorem sums_swap (w : Weights) (X : Mat) (gids : Option (List ℤ))
    (pairs : List Judgment) (h0 : ∀ p ∈ pairs, p.relation = 0)
    (hne : ∀ p ∈ pairs, isValid X p = true → scoreDiff w X gids p ≠ 0) :
    concSum w X gids (pairs.map swapJ) = discSum w X gids pairs ∧
      discSum w X gids (pairs.map swapJ) = concSum w X gids pairs ∧
      totSum X (pairs.map swapJ) = totSum X pairs := by
  induction pairs with
  | nil => simp [concSum, discSum, totSum]
  | cons p rest ih =>
    have h0r : ∀ q ∈ rest, q.relation = 0 :=
      fun q hq => h0 q (List.mem_cons_of_mem p hq)
    have hner : ∀ q ∈ rest, isValid X q = true → scoreDiff w X gids q ≠ 0 :=
      fun q hq => hne q (List.mem_cons_of_mem p hq)
    obtain ⟨ih1, ih2, ih3⟩ := ih h0r hner
    rw [List.map_cons]
    by_cases hv : isValid X p = true
    · have hvs : isValid X (swapJ p) = true := by rw [isValid_swap]; exact hv
      have hB := concB_swap w X gids p (h0 p (List.mem_cons_self p rest))
        (hne p (List.mem_cons_self p rest) hv)
      have himp : (swapJ p).importance = p.importance := rfl
      cases hcB : concB w X gids p with
      | true =>
        have hBf : concB w X gids (swapJ p) = false := by rw [hB, hcB]; rfl
        have g1 : concSum w X gids (swapJ p :: List.map swapJ rest)
            = concSum w X gids (List.map swapJ rest) := by
          simp [concSum, List.filter_cons, hvs, hBf]
        have g2 : discSum w X gids (swapJ p :: List.map swapJ rest)
            = p.importance + discSum w X gids (List.map swapJ rest) := by
          simp [discSum, List.filter_cons, hvs, hBf, himp]
        have g3 : totSum X (swapJ p :: List.map swapJ rest)
            = p.importance + totSum X (List.map swapJ rest) := by
          simp [totSum, List.filter_cons, hvs, himp]
        have h1 : concSum w X gids (p :: rest)
            = p.importance + concSum w X gids rest := by
          simp [concSum, List.filter_cons, hv, hcB]
        have h2 : discSum w X gids (p :: rest) = discSum w X gids rest := by
          simp [discSum, List.filter_cons, hv, hcB]
        have h3 : totSum X (p :: rest) = p.importance + totSum X rest := by
          simp [totSum, List.filter_cons, hv]
        exact ⟨by rw [g1, h2, ih1], by rw [g2, h1, ih2],
          by rw [g3, h3, ih3]⟩
      | false =>
        have hBt : concB w X gids (swapJ p) = true := by rw [hB, hcB]; rfl
        have g1 : concSum w X gids (swapJ p :: List.map swapJ rest)
            = p.importance + concSum w X gids (List.map swapJ rest) := by
          simp [concSum, List.filter_cons, hvs, hBt, himp]
        have g2 : discSum w X gids (swapJ p :: List.map swapJ rest)
            = discSum w X gids (List.map swapJ rest) := by
          simp [discSum, List.filter_cons, hvs, hBt]
        have g3 : totSum X (swapJ p :: List.map swapJ rest)
            = p.importance + totSum X (List.map swapJ rest) := by
          simp [totSum, List.filter_cons, hvs, himp]
        have h1 : concSum w X gids (p :: rest) = concSum w X gids rest := by
          simp [concSum, List.filter_cons, hv, hcB]
        have h2 : discSum w X gids (p :: rest)
            = p.importance + discSum w X gids rest := by
          simp [discSum, List.filter_cons, hv, hcB]
        have h3 : totSum X (p :: rest) = p.importance + totSum X rest := by
          simp [totSum, List.filter_cons, hv]
        exact ⟨by rw [g1, h2, ih1], by rw [g2, h1, ih2],
          by rw [g3, h3, ih3]⟩
    · have hv' : isValid X p = false := by
        cases h : isValid X p
        · rfl
        · exact absurd h hv
      have hvs : isValid X (swapJ p) = false := by rw [isValid_swap]; exact hv'
      have g1 : concSum w X gids (swapJ p :: List.map swapJ rest)
          = concSum w X gids (List.map swapJ rest) := by
        simp [concSum, List.filter_cons, hvs]
      have g2 : discSum w X gids (swapJ p :: List.map swapJ rest)
          = discSum w X gids (List.map swapJ rest) := by
        simp [discSum, List.filter_cons, hvs]
      have g3 : totSum X (swapJ p :: List.map swapJ rest)
          = totSum X (List.map swapJ rest) := by
        simp [totSum, List.filter_cons, hvs]
      have h1 : concSum w X gids (p :: rest) = concSum w X gids rest := by
        simp [concSum, List.filter_cons, hv']
      have h2 : discSum w X gids (p :: rest) = discSum w X gids rest := by
        simp [discSum, List.filter_cons, hv']
      have h3 : totSum X (p :: rest) = totSum X rest := by
        simp [totSum, List.filter_cons, hv']
      exact ⟨by rw [g1, h2, ih1], by rw [g2, h1, ih2], by rw [g3, h3, ih3]⟩

/-- C9 counterexample: weights `[1]`, rows `X = [[1], [0]]`, the single
tie judgment `(0, 1, 0, 1)`: the concordance is `1`, but after swapping
`(i, j)` and negating the relation it is `-1`, not unchanged. -/
theorem kendall_tau_swap_counterexample :
    (RankingModel.mk "ranksvm" (.dense [1])).kendall_tau [[1], [0]]
        [⟨0, 1, 0, 1⟩] none = .ok 1 ∧
      (RankingModel.mk "ranksvm" (.dense [1])).kendall_tau [[1], [0]]
        (List.map swapJ [⟨0, 1, 0, 1⟩]) none = .ok (-1) ∧
      (Except.ok (1 : ℚ) : Except PyErr ℚ) ≠ .ok (-1) := by
  refine ⟨?_, ?_, by simp; norm_num⟩
  · norm_num [RankingModel.kendall_tau, kendallTauLoop, RankingModel.predict,
      predictCore, dot, row, gidOf]
  · norm_num [RankingModel.kendall_tau, kendallTauLoop, RankingModel.predict,
      predictCore, dot, row, gidOf, swapJ]

/-- C9 (amended): the evaluation is not symmetric under the swap; instead,
on a valid backend, for judgment lists whose relations are all `0` (the
only ones for which the transformed list passes the code's
`relation >= 0` assertion) and in which no non-degenerate judgment has
exactly tied scores, replacing every judgment `(i, j, relation, importance)`
by `(j, i, -relation, importance)` negates the concordance value (and
maps the zero-total-importance failure to itself). -/
theorem kendall_tau_swap_negates (m : RankingModel)
    (hs : m.model_str = "ranksvm" ∨ m.model_str = "lp") (X : Mat)
    (gids : Option (List ℤ)) (pairs : List Judgment)
    (h0 : ∀ p ∈ pairs, p.relation = 0)
    (hne : ∀ p ∈ pairs, isValid X p = true →
      scoreDiff m.weights X gids p ≠ 0) :
    m.kendall_tau X (pairs.map swapJ) gids
      = Except.map (fun q => -q) (m.kendall_tau X pairs gids) := by
  have hrel : ∀ p ∈ pairs, 0 ≤ p.relation :=
    fun p hp => le_of_eq (h0 p hp).symm
  have hrel' : ∀ q ∈ pairs.map swapJ, 0 ≤ q.relation := by
    intro q hq
    rcases List.mem_map.mp hq with ⟨p, hp, rfl⟩
    simp [swapJ, h0 p hp]
  obtain ⟨e1, e2, e3⟩ := sums_swap m.weights X gids pairs h0 hne
  rw [RankingModel.kendall_tau, RankingModel.kendall_tau,
    kendallTauLoop_eq m hs X gids pairs hrel,
    kendallTauLoop_eq m hs X gids (pairs.map swapJ) hrel', e1, e2, e3]
  simp only [zero_add]
  by_cases ht : totSum X pairs = 0
  · rw [if_pos ht, if_pos ht]
    rfl
  · rw [if_neg ht, if_neg ht]
    simp only [Except.map, Except.ok.injEq]
    rw [← neg_div]
    congr 1
    ring

/-- C9 witness: the amended statement at the counterexample's input, where
the value flips from `1` to `-1`. -/
theorem kendall_tau_swap_negates_witness :
    (RankingModel.mk "ranksvm" (.dense [1])).kendall_tau [[1], [0]]
        (List.map swapJ [⟨0, 1, 0, 1⟩]) none
      = Except.map (fun q => -q)
        ((RankingModel.mk "ranksvm" (.dense [1])).kendall_tau [[1], [0]]
          [⟨0, 1, 0, 1⟩] none) :=
  kendall_tau_swap_negates (RankingModel.mk "ranksvm" (.dense [1]))
    (Or.inl rfl) [[1], [0]] none [⟨0, 1, 0, 1⟩]
    (by intro p hp; rw [List.mem_singleton] at hp; subst hp; rfl)
    (by
      intro p hp _
      rw [List.mem_singleton] at hp
      subst hp
      norm_num [scoreDiff, predictCore, dot, row, gidOf])

/-- C8 witness: a degenerate judgment (both indices naming the same row)
appended to one real judgment does not change the fitted artifact. -/
theorem fit_ignores_degenerate_witness :
    RankingModel.fit "ranksvm" [[1], [2]]
        ([⟨0, 1, 1, 1⟩] ++ [⟨0, 0, 2, 1⟩]) none
        (fun _ => [0]) (fun _ _ => 0)
      = RankingModel.fit "ranksvm" [[1], [2]] [⟨0, 1, 1, 1⟩] none
        (fun _ => [0]) (fun _ _ => 0) :=
  fit_ignores_degenerate "ranksvm" [[1], [2]] none [⟨0, 1, 1, 1⟩]
    [⟨0, 0, 2, 1⟩]
    (by intro p hp; rw [List.mem_singleton] at hp; subst hp; rfl)
    (fun _ => [0]) (fun _ _ => 0)

theorem sum_flatMap_q {α : Type} (l : List α) (f : α → List ℚ) :
    (l.flatMap f).sum = (l.map fun x => (f x).sum).sum := by
  induction l with
  | nil => simp
  | cons a t ih => simp [List.flatMap_cons, ih]

theorem sum_map_add_q {α : Type} (l : List α) (f g : α → ℚ) :
    (l.map fun x => f x + g x).sum = (l.map f).sum + (l.map g).sum := by
  induction l with
  | nil => simp
  | cons a t ih =>
    simp [ih]
    ring

theorem sum_map_mul_left_q {α : Type} (l : List α) (c : ℚ) (f : α → ℚ) :
    (l.map fun x => c * f x).sum = c * (l.map f).sum := by
  induction l with
  | nil => simp
  | cons a t ih =>
    simp [ih]
    ring

theorem sum_map_congr_q {α : Type} (l : List α) (f g : α → ℚ)
    (h : ∀ x ∈ l, f x = g x) : (l.map f).sum = (l.map g).sum := by
  induction l with
  | nil => simp
  | cons a t ih =>
    simp only [List.map_cons, List.sum_cons, h a (List.mem_cons_self a t)]
    rw [ih fun x hx => h x (List.mem_cons_of_mem a hx)]

theorem sum_map_swap_q {α β : Type} (l1 : List α) (l2 : List β)
    (f : α → β → ℚ) :
    (l1.map fun a => (l2.map fun b => f a b).sum).sum
      = (l2.map fun b => (l1.map fun a => f a b).sum).sum := by
  induction l1 with
  | nil =>
    simp only [List.map_nil, List.sum_nil]
    induction l2 with
    | nil => simp
    | cons b t ih =>
      rw [List.map_cons, List.sum_cons, zero_add]
      exact ih
  | cons a t ih =>
    simp only [List.map_cons, List.sum_cons, ih]
    rw [← sum_map_add_q]

/-- For a non-degenerate judgment, the loop body appends exactly one slack
(a slack variable for the judgment's index pair, with its importance) and
the judgment's constraint. -/
theorem judgmentStep_valid (X : Mat) (egids : List ℤ) (s : LPState)
    (p : Judgment) (hp : ¬ row X p.i = row X p.j) :
    ∃ uid, judgmentStep X egids s p
      = { constraints :=
            s.constraints ++ [judgConstraint X egids p (Var.slack p.i p.j uid)],
          slacks := s.slacks ++ [(Var.slack p.i p.j uid, p.importance)],
          seen :=
            if (p.i, p.j) ∈ s.seen then s.seen else s.seen ++ [(p.i, p.j)],
          counter :=
            if (p.i, p.j) ∈ s.seen then s.counter + 1 else s.counter } := by
  by_cases hmem : (p.i, p.j) ∈ s.seen
  · have hd : decide ((p.i, p.j) ∈ s.seen) = true := decide_eq_true hmem
    refine ⟨some s.counter, ?_⟩
    rw [judgmentStep, if_neg hp]
    simp only [hd, if_pos hmem, if_true]
  · have hd : decide ((p.i, p.j) ∈ s.seen) = false := decide_eq_false hmem
    refine ⟨none, ?_⟩
    rw [judgmentStep, if_neg hp]
    simp only [hd, if_neg hmem, Bool.false_eq_true, if_false]

theorem lpFold_structure (X : Mat) (egids : List ℤ) (pairs : List Judgment)
    (s : LPState) :
    ∃ Δ : List (Var × ℚ),
      (pairs.foldl (judgmentStep X egids) s).slacks = s.slacks ++ Δ ∧
      (pairs.foldl (judgmentStep X egids) s).constraints
        = s.constraints ++ List.zipWith (judgConstraint X egids)
            (pairs.filter fun p => isValid X p) (Δ.map Prod.fst) ∧
      List.Forall₂
        (fun p sv => (∃ uid, sv.1 = Var.slack p.i p.j uid) ∧
          Var.lowBound sv.1 = some 0 ∧ sv.2 = p.importance)
        (pairs.filter fun p => isValid X p) Δ := by
  induction pairs generalizing s with
  | nil => exact ⟨[], by simp, by simp, by simp⟩
  | cons p rest ih =>
    by_cases hp : row X p.i = row X p.j
    · have hv : isValid X p = false := by simp [isValid, hp]
      rw [List.foldl_cons, judgmentStep_degenerate X egids s p hp]
      obtain ⟨Δ, h1, h2, h3⟩ := ih s
      refine ⟨Δ, h1, ?_, ?_⟩
      · rw [List.filter_cons_of_neg (by simp [hv])]
        exact h2
      · rw [List.filter_cons_of_neg (by simp [hv])]
        exact h3
    · have hv : isValid X p = true := by simp [isValid, hp]
      obtain ⟨uid, hstep⟩ := judgmentStep_valid X egids s p hp
      rw [List.foldl_cons, hstep]
      obtain ⟨Δ, h1, h2, h3⟩ := ih _
      refine ⟨(Var.slack p.i p.j uid, p.importance) :: Δ, ?_, ?_, ?_⟩
      · rw [h1]
        simp
      · rw [h2]
        rw [List.filter_cons_of_pos (by rw [hv])]
        simp [List.zipWith]
      · rw [List.filter_cons_of_pos (by rw [hv])]
        exact List.Forall₂.cons ⟨⟨uid, rfl⟩, rfl, rfl⟩ h3

theorem judgmentStep_seen (X : Mat) (egids : List ℤ) (s : LPState)
    (p : Judgment) (hp : ¬ row X p.i = row X p.j)
    (hmem : (p.i, p.j) ∈ s.seen) :
    judgmentStep X egids s p
      = { constraints := s.constraints ++
            [judgConstraint X egids p (Var.slack p.i p.j (some s.counter))],
          slacks := s.slacks ++
            [(Var.slack p.i p.j (some s.counter), p.importance)],
          seen := s.seen,
          counter := s.counter + 1 } := by
  have hd : decide ((p.i, p.j) ∈ s.seen) = true := decide_eq_true hmem
  rw [judgmentStep, if_neg hp]
  simp only [hd, if_pos hmem, if_true]

theorem judgmentStep_not_seen (X : Mat) (egids : List ℤ) (s : LPState)
    (p : Judgment) (hp : ¬ row X p.i = row X p.j)
    (hmem : (p.i, p.j) ∉ s.seen) :
    judgmentStep X egids s p
      = { constraints := s.constraints ++
            [judgConstraint X egids p (Var.slack p.i p.j none)],
          slacks := s.slacks ++ [(Var.slack p.i p.j none, p.importance)],
          seen := s.seen ++ [(p.i, p.j)],
          counter := s.counter } := by
  have hd : decide ((p.i, p.j) ∈ s.seen) = false := decide_eq_false hmem
  rw [judgmentStep, if_neg hp]
  simp only [hd, if_neg hmem, Bool.false_eq_true, if_false]

theorem slackInv_step (X : Mat) (egids : List ℤ) (s : LPState) (p : Judgment)
    (h : SlackInv s) : SlackInv (judgmentStep X egids s p) := by
  obtain ⟨h1, h2⟩ := h
  by_cases hp : row X p.i = row X p.j
  · rw [judgmentStep_degenerate X egids s p hp]
    exact ⟨h1, h2⟩
  by_cases hmem : (p.i, p.j) ∈ s.seen
  · rw [judgmentStep_seen X egids s p hp hmem]
    constructor
    · intro v hv
      rw [List.map_append, List.mem_append] at hv
      rcases hv with hv | hv
      · obtain ⟨i, j, uid, heq, hnone, hsome⟩ := h1 v hv
        exact ⟨i, j, uid, heq, hnone,
          fun n hn => Nat.lt_succ_of_lt (hsome n hn)⟩
      · rw [List.map_cons, List.map_nil, List.mem_singleton] at hv
        subst hv
        refine ⟨p.i, p.j, some s.counter, rfl, ?_, ?_⟩
        · intro hc
          cases hc
        · intro n hn
          rw [← Option.some.inj hn]
          exact Nat.lt_succ_self _
    · rw [List.map_append]
      rw [List.nodup_append]
      refine ⟨h2, List.nodup_singleton _, ?_⟩
      intro v hv hv'
      rw [List.map_cons, List.map_nil, List.mem_singleton] at hv'
      subst hv'
      obtain ⟨i, j, uid, heq, _, hsome⟩ := h1 _ hv
      cases heq
      exact absurd (hsome s.counter rfl) (lt_irrefl _)
  · rw [judgmentStep_not_seen X egids s p hp hmem]
    constructor
    · intro v hv
      rw [List.map_append, List.mem_append] at hv
      rcases hv with hv | hv
      · obtain ⟨i, j, uid, heq, hnone, hsome⟩ := h1 v hv
        exact ⟨i, j, uid, heq,
          fun hu => List.mem_append_left _ (hnone hu), hsome⟩
      · rw [List.map_cons, List.map_nil, List.mem_singleton] at hv
        subst hv
        refine ⟨p.i, p.j, none, rfl, ?_, ?_⟩
        · intro _
          exact List.mem_append_right _ (List.mem_singleton_self _)
        · intro n hn
          cases hn
    · rw [List.map_append]
      rw [List.nodup_append]
      refine ⟨h2, List.nodup_singleton _, ?_⟩
      intro v hv hv'
      rw [List.map_cons, List.map_nil, List.mem_singleton] at hv'
      subst hv'
      obtain ⟨i, j, uid, heq, hnone, _⟩ := h1 _ hv
      cases heq
      exact hmem (hnone rfl)

theorem slackInv_foldl (X : Mat) (egids : List ℤ) (pairs : List Judgment)
    (s : LPState) (h : SlackInv s) :
    SlackInv (pairs.foldl (judgmentStep X egids) s) := by
  induction pairs generalizing s with
  | nil => exact h
  | cons p rest ih => exact ih _ (slackInv_step X egids s p h)

theorem evalExpr_lpObjective (D : ℕ) (groups : List ℤ) (C : ℚ)
    (slacks : List (Var × ℚ)) (sol : Var → ℚ) :
    evalExpr sol (lpObjective D groups C slacks)
      = C * (slacks.map fun sv => sv.2 * sol sv.1).sum
        + (groups.map fun g =>
            ((List.range D).map fun k => sol (Var.abs_w g k)).sum).sum := by
  unfold evalExpr lpObjective
  rw [List.map_append, List.sum_append, add_zero]
  congr 1
  · have h : (slacks.map fun sv => C * sv.2 * sol sv.1).sum
        = (slacks.map fun sv => C * (sv.2 * sol sv.1)).sum :=
      sum_map_congr_q _ _ _ fun sv _ => mul_assoc _ _ _
    calc ((slacks.map fun sv => (C * sv.2, sv.1)).map
            fun t => t.1 * sol t.2).sum
        = (slacks.map fun sv => C * sv.2 * sol sv.1).sum := by
          rw [List.map_map]
          rfl
      _ = C * (slacks.map fun sv => sv.2 * sol sv.1).sum := by
          rw [h, sum_map_mul_left_q]
  · rw [List.map_flatMap, sum_flatMap_q, ← sum_map_swap_q]
    refine sum_map_congr_q _ _ _ fun k _ => ?_
    rw [List.map_map]
    exact sum_map_congr_q _ _ _ fun g _ => one_mul _

theorem constrHolds_judgConstraint (X : Mat) (egids : List ℤ)
    (p : Judgment) (sv : Var) (sol : Var → ℚ) :
    constrHolds sol (judgConstraint X egids p sv)
      ↔ (p.relation : ℚ) - sol sv ≤
          ((List.range (ncols X)).map fun k =>
            sol (Var.w (egids.getD p.i 0) k) * entry X p.i k).sum
          - ((List.range (ncols X)).map fun k =>
            sol (Var.w (egids.getD p.j 0) k) * entry X p.j k).sum := by
  unfold constrHolds judgConstraint evalExpr
  have hR : (([((-1 : ℚ), sv)].map fun t => t.1 * sol t.2).sum
      + (p.relation : ℚ)) = (p.relation : ℚ) - sol sv := by
    simp
    ring
  have hL : ((((List.range (ncols X)).flatMap fun k =>
        [(entry X p.i k, Var.w (egids.getD p.i 0) k),
         (-(entry X p.j k), Var.w (egids.getD p.j 0) k)]).map
          fun t => t.1 * sol t.2).sum + (0 : ℚ))
      = ((List.range (ncols X)).map fun k =>
          sol (Var.w (egids.getD p.i 0) k) * entry X p.i k).sum
        - ((List.range (ncols X)).map fun k =>
          sol (Var.w (egids.getD p.j 0) k) * entry X p.j k).sum := by
    rw [add_zero, List.map_flatMap, sum_flatMap_q]
    have step : ((List.range (ncols X)).map fun k =>
          (([(entry X p.i k, Var.w (egids.getD p.i 0) k),
             (-(entry X p.j k), Var.w (egids.getD p.j 0) k)]).map
            fun t => t.1 * sol t.2).sum).sum
        = ((List.range (ncols X)).map fun k =>
            sol (Var.w (egids.getD p.i 0) k) * entry X p.i k
              + (-(sol (Var.w (egids.getD p.j 0) k) * entry X p.j k))).sum := by
      refine sum_map_congr_q _ _ _ fun k _ => ?_
      simp
      ring
    rw [step, sum_map_add_q]
    have hneg : ((List.range (ncols X)).map fun k =>
          -(sol (Var.w (egids.getD p.j 0) k) * entry X p.j k)).sum
        = -(((List.range (ncols X)).map fun k =>
            sol (Var.w (egids.getD p.j 0) k) * entry X p.j k).sum) := by
      have := sum_map_mul_left_q (List.range (ncols X)) (-1 : ℚ)
        fun k => sol (Var.w (egids.getD p.j 0) k) * entry X p.j k
      simp only [neg_one_mul] at this
      exact this
    rw [hneg]
    ring
  rw [hR, hL]

theorem groupConstraints_mem (D : ℕ) (groups : List ℤ) (g : ℤ)
    (hg : g ∈ groups) (k : ℕ) (hk : k < D) :
    ((([((1 : ℚ), Var.abs_w g k)], (0 : ℚ)),
        ([((1 : ℚ), Var.w g k)], (0 : ℚ))) ∈ groupConstraints D groups) ∧
      ((([((1 : ℚ), Var.abs_w g k)], (0 : ℚ)),
        ([((-1 : ℚ), Var.w g k)], (0 : ℚ))) ∈ groupConstraints D groups) := by
  unfold groupConstraints
  constructor <;>
    · rw [List.mem_flatMap]
      refine ⟨g, hg, ?_⟩
      rw [List.mem_flatMap]
      exact ⟨k, List.mem_range.mpr hk, by simp⟩

/-- C7: the LP problem `LP.fit` hands to the solver has exactly the claimed
shape: (1) the valid (non-degenerate) judgments each contribute, in order,
one slack entry — a slack variable named by the judgment's index pair,
declared with lower bound 0, carrying the judgment's importance; (2) the
slack variables are pairwise distinct, repeats of the same `(i, j)` pair
included (the fresh suffix never collides); (3) the constraint list is the
per-group `abs_w ≥ w`, `abs_w ≥ -w` constraints followed by exactly one
constraint per valid judgment using its slack; (4) a judgment's constraint
holds under an assignment exactly when
`Σ_k w[g(i)][k]·X[i][k] − Σ_k w[g(j)][k]·X[j][k] ≥ relation − slack`;
(5) for every group and feature index both absolute-value constraints are
present and mean `w ≤ abs_w` resp. `-w ≤ abs_w`; (6) the minimized
objective evaluates to
`C · Σ importance·slack + Σ_group Σ_k abs_w[group][k]`. -/
theorem lp_problem_characterization (X : Mat) (pairs : List Judgment)
    (gids : Option (List ℤ)) (C : ℚ) :
    List.Forall₂
      (fun p sv => (∃ uid, sv.1 = Var.slack p.i p.j uid) ∧
        Var.lowBound sv.1 = some 0 ∧ sv.2 = p.importance)
      (pairs.filter fun p => isValid X p)
      (buildProblem X pairs gids C).slacks ∧
    ((buildProblem X pairs gids C).slacks.map Prod.fst).Nodup ∧
    (buildProblem X pairs gids C).constraints
      = groupConstraints (ncols X) (dedupFirst (effGroupIds X gids))
        ++ List.zipWith (judgConstraint X (effGroupIds X gids))
            (pairs.filter fun p => isValid X p)
            ((buildProblem X pairs gids C).slacks.map Prod.fst) ∧
    (∀ (sol : Var → ℚ) (p : Judgment) (sv : Var),
      constrHolds sol (judgConstraint X (effGroupIds X gids) p sv)
        ↔ (p.relation : ℚ) - sol sv ≤
            ((List.range (ncols X)).map fun k =>
              sol (Var.w ((effGroupIds X gids).getD p.i 0) k)
                * entry X p.i k).sum
            - ((List.range (ncols X)).map fun k =>
              sol (Var.w ((effGroupIds X gids).getD p.j 0) k)
                * entry X p.j k).sum) ∧
    (∀ g ∈ dedupFirst (effGroupIds X gids), ∀ k, k < ncols X →
      ((([((1 : ℚ), Var.abs_w g k)], (0 : ℚ)),
          ([((1 : ℚ), Var.w g k)], (0 : ℚ)))
            ∈ (buildProblem X pairs gids C).constraints) ∧
        ((([((1 : ℚ), Var.abs_w g k)], (0 : ℚ)),
          ([((-1 : ℚ), Var.w g k)], (0 : ℚ)))
            ∈ (buildProblem X pairs gids C).constraints) ∧
        ∀ sol : Var → ℚ,
          (constrHolds sol (([((1 : ℚ), Var.abs_w g k)], (0 : ℚ)),
              ([((1 : ℚ), Var.w g k)], (0 : ℚ)))
            ↔ sol (Var.w g k) ≤ sol (Var.abs_w g k)) ∧
          (constrHolds sol (([((1 : ℚ), Var.abs_w g k)], (0 : ℚ)),
              ([((-1 : ℚ), Var.w g k)], (0 : ℚ)))
            ↔ -(sol (Var.w g k)) ≤ sol (Var.abs_w g k))) ∧
    (∀ sol : Var → ℚ,
      evalExpr sol (buildProblem X pairs gids C).objective
        = C * ((buildProblem X pairs gids C).slacks.map
            fun sv => sv.2 * sol sv.1).sum
          + ((dedupFirst (effGroupIds X gids)).map fun g =>
              ((List.range (ncols X)).map fun k =>
                sol (Var.abs_w g k)).sum).sum) := by
  obtain ⟨Δ, h1, h2, h3⟩ := lpFold_structure X (effGroupIds X gids) pairs
    ⟨groupConstraints (ncols X) (dedupFirst (effGroupIds X gids)), [], [], 0⟩
  have hslacks : (buildProblem X pairs gids C).slacks = Δ := by
    show (lpLoop X gids pairs).slacks = Δ
    unfold lpLoop
    rw [h1]
    exact List.nil_append Δ
  have hinv : SlackInv (lpLoop X gids pairs) := by
    unfold lpLoop
    refine slackInv_foldl _ _ _ _ ⟨?_, ?_⟩
    · intro v hv
      simp at hv
    · simp
  have hcons : (buildProblem X pairs gids C).constraints
      = groupConstraints (ncols X) (dedupFirst (effGroupIds X gids))
        ++ List.zipWith (judgConstraint X (effGroupIds X gids))
            (pairs.filter fun p => isValid X p)
            ((buildProblem X pairs gids C).slacks.map Prod.fst) := by
    rw [hslacks]
    show (lpLoop X gids pairs).constraints = _
    unfold lpLoop
    rw [h2]
  refine ⟨by rw [hslacks]; exact h3, hinv.2, hcons, ?_, ?_, ?_⟩
  · exact fun sol p sv => constrHolds_judgConstraint X (effGroupIds X gids)
      p sv sol
  · intro g hg k hk
    obtain ⟨m1, m2⟩ := groupConstraints_mem (ncols X)
      (dedupFirst (effGroupIds X gids)) g hg k hk
    refine ⟨by rw [hcons]; exact List.mem_append_left _ m1,
      by rw [hcons]; exact List.mem_append_left _ m2, ?_⟩
    intro sol
    constructor
    · unfold constrHolds evalExpr
      simp
    · unfold constrHolds evalExpr
      simp
  · intro sol
    exact evalExpr_lpObjective (ncols X)
      (dedupFirst (effGroupIds X gids)) C
      (buildProblem X pairs gids C).slacks sol

/-- C7 witness: at a concrete grouped input with a duplicated `(i, j)`
judgment pair, the slack variables are pairwise distinct and the
absolute-value constraint of group 5, feature 0 is present. -/
theorem lp_problem_characterization_witness :
    ((buildProblem [[1], [2]] [⟨0, 1, 1, 1⟩, ⟨0, 1, 2, 1⟩]
        (some [5, 7]) 10).slacks.map Prod.fst).Nodup ∧
      ((([((1 : ℚ), Var.abs_w 5 0)], (0 : ℚ)),
          ([((1 : ℚ), Var.w 5 0)], (0 : ℚ)))
        ∈ (buildProblem [[1], [2]] [⟨0, 1, 1, 1⟩, ⟨0, 1, 2, 1⟩]
            (some [5, 7]) 10).constraints) :=
  ⟨(lp_problem_characterization [[1], [2]] [⟨0, 1, 1, 1⟩, ⟨0, 1, 2, 1⟩]
      (some [5, 7]) 10).2.1,
    ((lp_problem_characterization [[1], [2]] [⟨0, 1, 1, 1⟩, ⟨0, 1, 2, 1⟩]
        (some [5, 7]) 10).2.2.2.2.1 5
      (by simp [dedupFirst, effGroupIds]) 0 (by norm_num [ncols])).1⟩

end LL
